import Mathlib

/-!
Verification of the blockchain ledger core of the supply-chain tracker
(`blockchain.py`): block construction, SHA-256 digesting of the canonical
JSON serialization, proof-of-work sealing, chain validation, persistence
round-trips and event projection, shallowly embedded in Lean.
-/

namespace SupplyChain

/-! ## SHA-256 over byte lists (faithful model of `hashlib.sha256(...).hexdigest()`) -/

def M32 : Nat := 4294967296

def wadd (a b : Nat) : Nat := (a + b) % M32

def rotr (n x : Nat) : Nat := ((x >>> n) ||| (x <<< (32 - n))) % M32

def wnot (x : Nat) : Nat := 4294967295 - x

def bsig0 (x : Nat) : Nat := (rotr 2 x) ^^^ (rotr 13 x) ^^^ (rotr 22 x)

def bsig1 (x : Nat) : Nat := (rotr 6 x) ^^^ (rotr 11 x) ^^^ (rotr 25 x)

def ssig0 (x : Nat) : Nat := (rotr 7 x) ^^^ (rotr 18 x) ^^^ (x >>> 3)

def ssig1 (x : Nat) : Nat := (rotr 17 x) ^^^ (rotr 19 x) ^^^ (x >>> 10)

def chF (e f g : Nat) : Nat := (e &&& f) ^^^ ((wnot e) &&& g)

def majF (a b c : Nat) : Nat := (a &&& b) ^^^ (a &&& c) ^^^ (b &&& c)

def K256 : List Nat :=
  [1116352408, 1899447441, 3049323471, 3921009573, 961987163,
   1508970993, 2453635748, 2870763221, 3624381080, 310598401,
   607225278, 1426881987, 1925078388, 2162078206, 2614888103,
   3248222580, 3835390401, 4022224774, 264347078, 604807628,
   770255983, 1249150122, 1555081692, 1996064986, 2554220882,
   2821834349, 2952996808, 3210313671, 3336571891, 3584528711,
   113926993, 338241895, 666307205, 773529912, 1294757372,
   1396182291, 1695183700, 1986661051, 2177026350, 2456956037,
   2730485921, 2820302411, 3259730800, 3345764771, 3516065817,
   3600352804, 4094571909, 275423344, 430227734, 506948616,
   659060556, 883997877, 958139571, 1322822218, 1537002063,
   1747873779, 1955562222, 2024104815, 2227730452, 2361852424,
   2428436474, 2756734187, 3204031479, 3329325298]

/-- `k` bytes of `n`, big-endian. -/
def beBytes : Nat → Nat → List Nat
  | 0, _ => []
  | k + 1, n => beBytes k (n >>> 8) ++ [n % 256]

/-- SHA-256 padding: append 0x80, zero bytes to 56 mod 64, then 8-byte big-endian bit length. -/
def padMsg (msg : List Nat) : List Nat :=
  let L := msg.length
  let k := (120 - ((L + 1) % 64)) % 64
  msg ++ [0x80] ++ List.replicate k 0 ++ beBytes 8 (8 * L)

/-- Split into 64-byte chunks (fuel-driven; fuel at least the length). -/
def chunks : Nat → List Nat → List (List Nat)
  | 0, _ => []
  | _, [] => []
  | fuel + 1, l => l.take 64 :: chunks fuel (l.drop 64)

/-- Pack bytes into 32-bit big-endian words. -/
def toWords : List Nat → List Nat
  | b0 :: b1 :: b2 :: b3 :: rest => (((b0 * 256 + b1) * 256 + b2) * 256 + b3) :: toWords rest
  | _ => []

/-- Extend the 16-word message block to the 64-word schedule. -/
def extendW : Nat → Array Nat → Array Nat
  | 0, w => w
  | k + 1, w =>
      let n := w.size
      let x := wadd (wadd (ssig1 (w.getD (n - 2) 0)) (w.getD (n - 7) 0))
                    (wadd (ssig0 (w.getD (n - 15) 0)) (w.getD (n - 16) 0))
      extendW k (w.push x)

structure H8 where
  a : Nat
  b : Nat
  c : Nat
  d : Nat
  e : Nat
  f : Nat
  g : Nat
  h : Nat
  deriving DecidableEq

def initH : H8 :=
  ⟨1779033703, 3144134277, 1013904242, 2773480762,
   1359893119, 2600822924, 528734635, 1541459225⟩

/-- One compression round; `kw` is the already-summed `K[t] + W[t]`. -/
def roundF (st : H8) (kw : Nat) : H8 :=
  let t1 := wadd (wadd (wadd st.h (bsig1 st.e)) (chF st.e st.f st.g)) kw
  let t2 := wadd (bsig0 st.a) (majF st.a st.b st.c)
  ⟨wadd t1 t2, st.a, st.b, st.c, wadd st.d t1, st.e, st.f, st.g⟩

def processChunk (hs : H8) (chunk : List Nat) : H8 :=
  let w := extendW 48 (toWords chunk).toArray
  let kw := List.zipWith wadd K256 w.toList
  let st := kw.foldl roundF hs
  ⟨wadd hs.a st.a, wadd hs.b st.b, wadd hs.c st.c, wadd hs.d st.d,
   wadd hs.e st.e, wadd hs.f st.f, wadd hs.g st.g, wadd hs.h st.h⟩

def sha256words (msg : List Nat) : H8 :=
  let padded := padMsg msg
  (chunks padded.length padded).foldl processChunk initH

def hexChar (n : Nat) : Char :=
  "0123456789abcdef".data.getD n 'x'

def wordHex (w : Nat) : List Char :=
  ((beBytes 4 w).map (fun b => [hexChar (b / 16), hexChar (b % 16)])).flatten

/-- Model of `hashlib.sha256(msg).hexdigest()`. -/
def sha256hex (msg : List Nat) : String :=
  let hs := sha256words msg
  ⟨([hs.a, hs.b, hs.c, hs.d, hs.e, hs.f, hs.g, hs.h].map wordHex).flatten⟩

/-- UTF-8 encoding of a code point (model of Python `str.encode()`). -/
def utf8Bytes (c : Nat) : List Nat :=
  if c < 0x80 then [c]
  else if c < 0x800 then [0xc0 + c / 64, 0x80 + c % 64]
  else if c < 0x10000 then [0xe0 + c / 4096, 0x80 + (c / 64) % 64, 0x80 + c % 64]
  else [0xf0 + c / 262144, 0x80 + (c / 4096) % 64, 0x80 + (c / 64) % 64, 0x80 + c % 64]

def strBytes (s : String) : List Nat :=
  (s.data.map (fun ch => utf8Bytes ch.toNat)).flatten

set_option maxRecDepth 40000

/-- Sanity check against the published SHA-256 test vector for "abc". -/
theorem sha256_test_vector :
    sha256hex (strBytes "abc")
      = "ba7816bf8f01cfea414140de5dae2223b00361a396177a9cb410ff61f20015ad" := by
  decide

/-! ## Canonical JSON serialization (model of `json.dumps(..., sort_keys=True)`) -/

def hex4 (n : Nat) : List Char :=
  [hexChar (n / 4096 % 16), hexChar (n / 256 % 16), hexChar (n / 16 % 16), hexChar (n % 16)]

/-- JSON string escaping as Python `json.dumps` does with the default `ensure_ascii=True`:
`"` and `\` escaped, control characters via shorthands or `\u00xx`, non-ASCII via `\uxxxx`
(surrogate pairs above the BMP). -/
def escChar (c : Char) : List Char :=
  let n := c.toNat
  if n = 34 then ['\\', '"']
  else if n = 92 then ['\\', '\\']
  else if n = 8 then ['\\', 'b']
  else if n = 9 then ['\\', 't']
  else if n = 10 then ['\\', 'n']
  else if n = 12 then ['\\', 'f']
  else if n = 13 then ['\\', 'r']
  else if n < 32 then '\\' :: 'u' :: hex4 n
  else if n < 127 then [c]
  else if n < 65536 then '\\' :: 'u' :: hex4 n
  else
    ('\\' :: 'u' :: hex4 (55296 + (n - 65536) / 1024)) ++
    ('\\' :: 'u' :: hex4 (56320 + (n - 65536) % 1024))

def jsonStr (s : String) : String :=
  ⟨'"' :: (s.data.map escChar).flatten ++ ['"']⟩

/-- A primitive JSON payload value. `num` carries the value's decimal JSON token
(as Python `repr` renders the int or float), since the ledger treats payload
values opaquely and only ever serializes them. -/
inductive Prim where
  | str (s : String)
  | num (tok : String)
  | bool (b : Bool)
  deriving DecidableEq

def Prim.render : Prim → String
  | .str s => jsonStr s
  | .num tok => tok
  | .bool b => if b then "true" else "false"

/-- A payload is a string-keyed map of primitives, in insertion order
(model of the Python dict passed to `add_block`). -/
def Payload := List (String × Prim)

instance : DecidableEq Payload := inferInstanceAs (DecidableEq (List (String × Prim)))

/-- Code-point lexicographic comparison on char lists, Python string `<=`. -/
def charListLe : List Char → List Char → Bool
  | [], _ => true
  | _ :: _, [] => false
  | c :: cs, d :: ds =>
      if c.toNat < d.toNat then true
      else if d.toNat < c.toNat then false
      else charListLe cs ds

def keyLe (p q : String × Prim) : Prop := charListLe p.1.data q.1.data = true

instance : DecidableRel keyLe :=
  fun p q => inferInstanceAs (Decidable (charListLe p.1.data q.1.data = true))

/-- `sorted(d.items())` on keys: what `json.dumps(..., sort_keys=True)` applies to a dict. -/
def sortPairs (l : Payload) : Payload := List.insertionSort keyLe l

def lb : String := "\x7b"

def rb : String := "\x7d"

/-- `", "`-separated `"key": value` renderings (the `json.dumps` default separators). -/
def renderPairs : Payload → String
  | [] => ""
  | [p] => jsonStr p.1 ++ ": " ++ p.2.render
  | p :: q :: rest => jsonStr p.1 ++ ": " ++ p.2.render ++ ", " ++ renderPairs (q :: rest)

def renderObj (l : Payload) : String := lb ++ renderPairs (sortPairs l) ++ rb

/-! ## Block (model of `class Block` in `blockchain.py`) -/

/-- The serialization hashed by `Block.compute_hash`: the five fields as a JSON object
with keys sorted (`data` < `index` < `nonce` < `previous_hash` < `timestamp`).
`timestamp` is represented by its JSON number token (Python float `repr`), since the
code only ever serializes it. -/
def blockString (index : Nat) (timestamp : String) (data : Payload)
    (previous_hash : String) (nonce : Nat) : String :=
  lb ++ "\"data\": " ++ renderObj data ++ ", \"index\": " ++ toString index ++
    ", \"nonce\": " ++ toString nonce ++ ", \"previous_hash\": " ++ jsonStr previous_hash ++
    ", \"timestamp\": " ++ timestamp ++ rb

def computeHashOf (index : Nat) (timestamp : String) (data : Payload)
    (previous_hash : String) (nonce : Nat) : String :=
  sha256hex (strBytes (blockString index timestamp data previous_hash nonce))

structure Block where
  index : Nat
  timestamp : String
  data : Payload
  previous_hash : String
  nonce : Nat
  hash : String
  deriving DecidableEq

def Block.compute_hash (b : Block) : String :=
  computeHashOf b.index b.timestamp b.data b.previous_hash b.nonce

/-- `Block.__init__`: stores the fields and sets `self.hash = self.compute_hash()`. -/
def Block.new (index : Nat) (timestamp : String) (data : Payload)
    (previous_hash : String) (nonce : Nat) : Block :=
  ⟨index, timestamp, data, previous_hash, nonce,
   computeHashOf index timestamp data previous_hash nonce⟩

/-- Cross-check of the whole serialization + digest pipeline: the digest of the
genesis block at timestamp token `1700000000.0`, as computed by
`hashlib.sha256` on the exact `json.dumps` byte sequence. -/
theorem genesis_digest_cross_check :
    (Block.new 0 "1700000000.0"
        [("type", Prim.str "GENESIS"), ("note", Prim.str "genesis block")] "0" 0).hash
      = "8420405ca4ce3e3fe70145d398f8bc5446a363c83f0b970c09b3fc0e1f669ceb" := by
  decide

/-! ## Blockchain (model of `class Blockchain` in `blockchain.py`) -/

structure Blockchain where
  chain : List Block
  difficulty : Nat
  deriving DecidableEq

def genesisData : Payload :=
  [("type", Prim.str "GENESIS"), ("note", Prim.str "genesis block")]

/-- `create_genesis_block`: `Block(0, time.time(), genesis_data, "0")`, so the digest is
whatever the constructor computed; despite the comment in the source, `proof_of_work`
is never invoked on it. `ts` is the creation timestamp token. -/
def create_genesis_block (ts : String) (difficulty : Nat) : Blockchain :=
  ⟨[Block.new 0 ts genesisData "0" 0], difficulty⟩

/-- `hash.startswith('0' * d)` on the char list of the hex digest. -/
def leadingZeros : List Char → Nat → Bool
  | _, 0 => true
  | [], _ + 1 => false
  | c :: cs, d + 1 => c == '0' && leadingZeros cs d

/-- `proof_of_work`: recompute the digest, increment `nonce` until the digest starts with
`difficulty` zeros, then store the digest in `hash`. The Python loop has no bound, so the
embedding carries fuel (extra iterations allowed) and returns `none` when it runs out. -/
def powLoop (difficulty fuel : Nat) (b : Block) : Option Block :=
  let computed := b.compute_hash
  if leadingZeros computed.data difficulty then some { b with hash := computed }
  else
    match fuel with
    | 0 => none
    | f + 1 => powLoop difficulty f { b with nonce := b.nonce + 1 }

theorem powLoop_eq (difficulty fuel : Nat) (b : Block) :
    powLoop difficulty fuel b =
      if leadingZeros b.compute_hash.data difficulty then
        some { b with hash := b.compute_hash }
      else
        match fuel with
        | 0 => none
        | f + 1 => powLoop difficulty f { b with nonce := b.nonce + 1 } := by
  conv_lhs => unfold powLoop

/-- Persisted record of a block (`to_list` entry / parsed JSON object); `nonce` and
`hash` are optional because `load_chain` reads them with `item.get(...)` defaults. -/
structure BlockRecord where
  index : Nat
  timestamp : String
  data : Payload
  previous_hash : String
  nonce : Option Nat
  hash : Option String
  deriving DecidableEq

def Block.toRecord (b : Block) : BlockRecord :=
  ⟨b.index, b.timestamp, b.data, b.previous_hash, some b.nonce, some b.hash⟩

def Blockchain.to_list (bc : Blockchain) : List BlockRecord :=
  bc.chain.map Block.toRecord

structure SaveOutcome where
  persisted : Option (List BlockRecord)
  log : List String
  deriving DecidableEq

def file_write (writeOk : Bool) (contents : List BlockRecord) :
    Except String (List BlockRecord) :=
  if writeOk then Except.ok contents else Except.error "disk unwritable"

/-- `save_chain`: `try: json.dump(self.to_list(), f) except Exception as e: print(...)`.
The write is modelled by the oracle `writeOk`; the `except` clause turns a failure into
a printed message, so the function itself never raises (its type has no error channel). -/
def Blockchain.save_chain (bc : Blockchain) (writeOk : Bool) : SaveOutcome :=
  match file_write writeOk bc.to_list with
  | .ok c => ⟨some c, []⟩
  | .error e => ⟨none, ["Error saving chain: " ++ e]⟩

/-- One step of `load_chain`: rebuild the `Block` (constructor recomputes the digest),
then overwrite `hash` with the stored one, defaulting to the recomputed digest. -/
def loadBlock (r : BlockRecord) : Block :=
  let b := Block.new r.index r.timestamp r.data r.previous_hash (r.nonce.getD 0)
  { b with hash := r.hash.getD b.compute_hash }

def load_chain (raw : List BlockRecord) : List Block :=
  raw.map loadBlock

inductive ChainError where
  | indexError
  | fuelExhausted
  deriving DecidableEq

structure AddResult where
  ledger : Blockchain
  block : Block
  persisted : Option (List BlockRecord)
  log : List String
  deriving DecidableEq

/-- `add_block(data)`: take the tail `self.chain[-1]` (an `IndexError` when the chain is
empty), build `Block(prev.index + 1, time.time(), data, prev.hash)`, run `proof_of_work`,
append, `save_chain`, and return the sealed block. `ts` is the wall-clock timestamp
token, `fuel` bounds the unbounded search, `writeOk` is the disk oracle. -/
def Blockchain.add_block (bc : Blockchain) (ts : String) (data : Payload)
    (fuel : Nat) (writeOk : Bool) : Except ChainError AddResult :=
  match bc.chain.getLast? with
  | none => Except.error ChainError.indexError
  | some prev =>
      match powLoop bc.difficulty fuel (Block.new (prev.index + 1) ts data prev.hash 0) with
      | none => Except.error ChainError.fuelExhausted
      | some b =>
          let bc2 : Blockchain := ⟨bc.chain ++ [b], bc.difficulty⟩
          let out := bc2.save_chain writeOk
          Except.ok ⟨bc2, b, out.persisted, out.log⟩

/-- The two checks `is_chain_valid` applies to a consecutive pair. -/
def pairOk (prev curr : Block) : Bool :=
  (curr.previous_hash == prev.hash) && (curr.compute_hash == curr.hash)

def validFrom : Block → List Block → Bool
  | _, [] => true
  | prev, curr :: rest => pairOk prev curr && validFrom curr rest

/-- `is_chain_valid`: for `i` in `1..len-1`, check linkage and self-consistency of
`chain[i]`; true when no pair fails (in particular for empty and singleton chains). -/
def Blockchain.is_chain_valid (bc : Blockchain) : Bool :=
  match bc.chain with
  | [] => true
  | b :: rest => validFrom b rest

structure EventRecord where
  block_index : Nat
  timestamp : String
  data : Payload
  hash : String
  previous_hash : String
  deriving DecidableEq

def Block.toEvent (b : Block) : EventRecord :=
  ⟨b.index, b.timestamp, b.data, b.hash, b.previous_hash⟩

/-- `get_all_events`: project every block of `chain[1:]` to its event record. -/
def Blockchain.get_all_events (bc : Blockchain) : List EventRecord :=
  (bc.chain.drop 1).map Block.toEvent

/-- Outcome of reading the persisted file at construction time: missing, raising
(unreadable / unparsable / records missing required keys), or parsed to a record list. -/
inductive ReadResult where
  | absent
  | unreadable
  | parsed (raw : List BlockRecord)

/-- `Blockchain.__init__`: load the persisted chain when the file exists and loading
succeeds; on a missing file or any exception fall back to `create_genesis_block`. -/
def Blockchain.construct (difficulty : Nat) (r : ReadResult) (genesisTs : String) :
    Blockchain :=
  match r with
  | .parsed raw => ⟨load_chain raw, difficulty⟩
  | _ => create_genesis_block genesisTs difficulty

/-- Chains producible by the ledger: a fresh genesis followed by successful appends. -/
inductive Reachable : Blockchain → Prop
  | genesis (ts : String) (d : Nat) : Reachable (create_genesis_block ts d)
  | step (bc : Blockchain) (ts : String) (data : Payload) (fuel : Nat) (writeOk : Bool)
      (r : AddResult) : Reachable bc →
      bc.add_block ts data fuel writeOk = Except.ok r → Reachable r.ledger

/-! ## Helper lemmas -/

theorem compute_hash_set_hash (b : Block) (h : String) :
    ({ b with hash := h } : Block).compute_hash = b.compute_hash := rfl

theorem powLoop_sound (d : Nat) : ∀ (fuel : Nat) (b b' : Block),
    powLoop d fuel b = some b' →
    b'.index = b.index ∧ b'.timestamp = b.timestamp ∧ b'.data = b.data ∧
    b'.previous_hash = b.previous_hash ∧ b.nonce ≤ b'.nonce ∧
    b'.hash = b'.compute_hash ∧ leadingZeros b'.compute_hash.data d = true ∧
    ∀ n, b.nonce ≤ n → n < b'.nonce →
      leadingZeros (computeHashOf b.index b.timestamp b.data b.previous_hash n).data d
        = false := by
  intro fuel
  induction fuel with
  | zero =>
      intro b b' h
      rw [powLoop_eq] at h
      by_cases hz : leadingZeros b.compute_hash.data d = true
      · rw [if_pos hz] at h
        injection h with h
        subst h
        exact ⟨rfl, rfl, rfl, rfl, Nat.le_refl _, rfl, hz,
          fun n h1 h2 => absurd (Nat.lt_of_le_of_lt h1 h2) (Nat.lt_irrefl _)⟩
      · rw [if_neg hz] at h
        exact absurd h (by simp)
  | succ f ih =>
      intro b b' h
      rw [powLoop_eq] at h
      by_cases hz : leadingZeros b.compute_hash.data d = true
      · rw [if_pos hz] at h
        injection h with h
        subst h
        exact ⟨rfl, rfl, rfl, rfl, Nat.le_refl _, rfl, hz,
          fun n h1 h2 => absurd (Nat.lt_of_le_of_lt h1 h2) (Nat.lt_irrefl _)⟩
      · rw [if_neg hz] at h
        obtain ⟨h1, h2, h3, h4, h5, h6, h7, h8⟩ := ih { b with nonce := b.nonce + 1 } b' h
        refine ⟨h1, h2, h3, h4, Nat.le_trans (Nat.le_succ _) h5, h6, h7, ?_⟩
        intro n hn1 hn2
        rcases Nat.eq_or_lt_of_le hn1 with he | hlt
        · subst he
          exact Bool.eq_false_iff.mpr hz
        · exact h8 n hlt hn2

theorem powLoop_zero (fuel : Nat) (b : Block) :
    powLoop 0 fuel b = some { b with hash := b.compute_hash } := by
  unfold powLoop
  rfl

theorem pairOk_iff (p c : Block) :
    pairOk p c = true ↔ c.previous_hash = p.hash ∧ c.compute_hash = c.hash := by
  simp [pairOk]

theorem validFrom_eq_chain' : ∀ (l : List Block) (b : Block),
    validFrom b l = true ↔ List.Chain' (fun p c => pairOk p c = true) (b :: l) := by
  intro l
  induction l with
  | nil => intro b; simp [validFrom]
  | cons c rest ih =>
      intro b
      rw [List.chain'_cons, ← ih c]
      simp [validFrom, Bool.and_eq_true]

theorem is_chain_valid_iff_chain' (bc : Blockchain) :
    bc.is_chain_valid = true ↔
      List.Chain' (fun p c => pairOk p c = true) bc.chain := by
  cases hb : bc.chain with
  | nil => simp [Blockchain.is_chain_valid, hb]
  | cons b rest =>
      rw [show bc.is_chain_valid = validFrom b rest by
            simp [Blockchain.is_chain_valid, hb]]
      exact validFrom_eq_chain' rest b

theorem add_block_ok (bc : Blockchain) (ts : String) (data : Payload) (fuel : Nat)
    (w : Bool) (r : AddResult) (h : bc.add_block ts data fuel w = Except.ok r) :
    ∃ prev, bc.chain.getLast? = some prev ∧
      powLoop bc.difficulty fuel (Block.new (prev.index + 1) ts data prev.hash 0)
        = some r.block ∧
      r.ledger = Blockchain.mk (bc.chain ++ [r.block]) bc.difficulty ∧
      r.persisted = (r.ledger.save_chain w).persisted ∧
      r.log = (r.ledger.save_chain w).log := by
  unfold Blockchain.add_block at h
  split at h
  · exact absurd h (by simp)
  · rename_i prev hl
    split at h
    · exact absurd h (by simp)
    · rename_i b hp
      simp only [Except.ok.injEq] at h
      subst h
      exact ⟨prev, hl, hp, rfl, rfl, rfl⟩

theorem loadBlock_toRecord (b : Block) : loadBlock b.toRecord = b := by
  cases b
  rfl

theorem load_to_list (bc : Blockchain) : load_chain bc.to_list = bc.chain := by
  unfold load_chain Blockchain.to_list
  rw [List.map_map]
  exact List.map_congr_left (fun b _ => loadBlock_toRecord b) |>.trans (List.map_id _)

theorem reachable_indices (bc : Blockchain) (h : Reachable bc) :
    bc.chain.map Block.index = List.range bc.chain.length ∧ bc.chain ≠ [] := by
  induction h with
  | genesis ts d => exact ⟨rfl, by simp [create_genesis_block]⟩
  | step bc ts data fuel w r hre hok ih =>
      obtain ⟨prev, hl, hp, hled, _, _⟩ := add_block_ok bc ts data fuel w r hok
      obtain ⟨ihmap, ihne⟩ := ih
      have hidx := (powLoop_sound bc.difficulty fuel _ _ hp).1
      -- the tail's index is `length - 1`
      obtain ⟨m, hm⟩ : ∃ m, bc.chain.length = m + 1 := by
        cases hc : bc.chain with
        | nil => exact absurd hc ihne
        | cons x xs => exact ⟨xs.length, by simp [hc]⟩
      have hlast : prev.index = m := by
        have h1 : (bc.chain.map Block.index).getLast? = some prev.index := by
          rw [List.getLast?_map, hl]
          rfl
        rw [ihmap, hm, List.range_succ, List.getLast?_concat] at h1
        injection h1 with h1
        exact h1.symm
      rw [hled]
      constructor
      · show (bc.chain ++ [r.block]).map Block.index
            = List.range (bc.chain ++ [r.block]).length
        rw [List.map_append, ihmap, List.length_append, hm]
        simp only [List.map_cons, List.map_nil, List.length_cons, List.length_nil]
        rw [hidx, hlast]
        show List.range (m + 1) ++ [m + 1] = List.range ((m + 1) + 1)
        rw [List.range_succ (m + 1)]
      · simp

theorem drop_one_range (n : Nat) : (List.range n).drop 1 = List.range' 1 (n - 1) := by
  cases n with
  | zero => rfl
  | succ m =>
      rw [List.range_eq_range', List.range'_succ]
      simp

/-! ## Order lemmas for the canonical key sort -/

theorem charListLe_total : ∀ a b : List Char, charListLe a b = true ∨ charListLe b a = true := by
  intro a
  induction a with
  | nil => intro b; left; rfl
  | cons c cs ih =>
      intro b
      cases b with
      | nil => right; rfl
      | cons d ds =>
          simp only [charListLe]
          rcases Nat.lt_trichotomy c.toNat d.toNat with h | h | h
          · left; rw [if_pos h]
          · rw [if_neg (by omega), if_neg (by omega), if_neg (by omega), if_neg (by omega)]
            exact ih ds
          · right; rw [if_pos h]

theorem charListLe_trans : ∀ a b c : List Char,
    charListLe a b = true → charListLe b c = true → charListLe a c = true := by
  intro a
  induction a with
  | nil => intro b c _ _; rfl
  | cons x xs ih =>
      intro b c hab hbc
      match b, c with
      | [], _ => simp [charListLe] at hab
      | _ :: _, [] => simp [charListLe] at hbc
      | y :: ys, z :: zs =>
          simp only [charListLe] at hab hbc ⊢
          rcases Nat.lt_trichotomy x.toNat y.toNat with h1 | h1 | h1
          · rcases Nat.lt_trichotomy y.toNat z.toNat with h2 | h2 | h2
            · rw [if_pos (by omega)]
            · rw [if_pos (by omega)]
            · rw [if_neg (by omega), if_pos h2] at hbc
              simp at hbc
          · rw [if_neg (by omega), if_neg (by omega)] at hab
            rcases Nat.lt_trichotomy y.toNat z.toNat with h2 | h2 | h2
            · rw [if_pos (by omega)]
            · rw [if_neg (by omega), if_neg (by omega)] at hbc ⊢
              exact ih ys zs hab hbc
            · rw [if_neg (by omega), if_pos h2] at hbc
              simp at hbc
          · rw [if_neg (by omega), if_pos h1] at hab
            simp at hab

theorem charListLe_antisymm : ∀ a b : List Char,
    charListLe a b = true → charListLe b a = true → a = b := by
  intro a
  induction a with
  | nil =>
      intro b _ hba
      cases b with
      | nil => rfl
      | cons y ys => simp [charListLe] at hba
  | cons x xs ih =>
      intro b hab hba
      cases b with
      | nil => simp [charListLe] at hab
      | cons y ys =>
          simp only [charListLe] at hab hba
          rcases Nat.lt_trichotomy x.toNat y.toNat with h1 | h1 | h1
          · rw [if_neg (by omega), if_pos h1] at hba
            simp at hba
          · rw [if_neg (by omega), if_neg (by omega)] at hab hba
            rw [ih ys hab hba, Char.ext (UInt32.ext h1)]
          · rw [if_neg (by omega), if_pos h1] at hab
            simp at hab

instance : IsTotal (String × Prim) keyLe :=
  ⟨fun p q => charListLe_total p.1.data q.1.data⟩

instance : IsTrans (String × Prim) keyLe :=
  ⟨fun _ _ _ hab hbc => charListLe_trans _ _ _ hab hbc⟩

/-- Strict key order: used to identify sorted duplicate-free-key lists up to permutation. -/
def keyLtStrict (p q : String × Prim) : Prop := keyLe p q ∧ p.1 ≠ q.1

instance : IsAntisymm (String × Prim) keyLtStrict :=
  ⟨fun _ _ hpq hqp =>
    False.elim (hpq.2 (String.ext (charListLe_antisymm _ _ hpq.1 hqp.1)))⟩

theorem sortPairs_sorted_strict (l : Payload) (hnd : (l.map Prod.fst).Nodup) :
    List.Sorted keyLtStrict (sortPairs l) := by
  have hs : List.Sorted keyLe (sortPairs l) := List.sorted_insertionSort keyLe l
  have hnd2 : ((sortPairs l).map Prod.fst).Nodup :=
    hnd.perm ((List.perm_insertionSort keyLe l).map Prod.fst).symm
  have hne : List.Pairwise (fun p q : String × Prim => p.1 ≠ q.1) (sortPairs l) :=
    List.pairwise_map.mp hnd2
  exact hs.and hne

theorem sortPairs_eq_of_perm (l1 l2 : Payload) (hperm : l1.Perm l2)
    (hnd : (l1.map Prod.fst).Nodup) : sortPairs l1 = sortPairs l2 := by
  have hperm12 : (sortPairs l1).Perm (sortPairs l2) :=
    (List.perm_insertionSort keyLe l1).trans
      (hperm.trans (List.perm_insertionSort keyLe l2).symm)
  have hnd2 : (l2.map Prod.fst).Nodup := hnd.perm (hperm.map Prod.fst)
  exact List.eq_of_perm_of_sorted hperm12
    (sortPairs_sorted_strict l1 hnd) (sortPairs_sorted_strict l2 hnd2)

/-! ## Concrete fixtures (timestamp tokens chosen as exact float `repr`s; digest
literals are the SHA-256 values of the corresponding canonical serializations) -/

def tsG : String := "1700000000.0"

def tsB1 : String := "1700000001.0"

def payloadP1 : Payload := [("product_id", Prim.str "P1"), ("stage", Prim.str "Created")]

def genesisHashLit : String :=
  "8420405ca4ce3e3fe70145d398f8bc5446a363c83f0b970c09b3fc0e1f669ceb"

def block1HashLit : String :=
  "1cdb258c9a04a0bd36380eec81a3641cc19cdb45c60e1d1c863808e9e2aaed90"

def genesisBlock0 : Block := ⟨0, tsG, genesisData, "0", 0, genesisHashLit⟩

def block1 : Block := ⟨1, tsB1, payloadP1, genesisHashLit, 0, block1HashLit⟩

/-- Fresh ledger with difficulty 0 (proof-of-work accepts every digest immediately). -/
def bcG : Blockchain := create_genesis_block tsG 0

/-- The two-block ledger after one append of `payloadP1` onto the fresh ledger. -/
def bc1 : Blockchain := ⟨[genesisBlock0, block1], 0⟩

/-- The result of that append when the disk write succeeds. -/
def res1 : AddResult := ⟨bc1, block1, some bc1.to_list, []⟩

/-- The result of that append when the disk write fails. -/
def res1f : AddResult := ⟨bc1, block1, none, ["Error saving chain: disk unwritable"]⟩

instance : DecidableEq (Except ChainError AddResult) := fun a b =>
  match a, b with
  | .ok x, .ok y =>
      if h : x = y then isTrue (by rw [h]) else isFalse (by simp [h])
  | .error x, .error y =>
      if h : x = y then isTrue (by rw [h]) else isFalse (by simp [h])
  | .ok _, .error _ => isFalse (by simp)
  | .error _, .ok _ => isFalse (by simp)

/-- One-time evaluation: the append on the fresh ledger produces exactly `res1`. -/
theorem add_block_concrete_eval :
    bcG.add_block tsB1 payloadP1 0 true = Except.ok res1 := by decide

/-- One-time evaluation: the same append with a failing disk write. -/
theorem add_block_concrete_eval_writefail :
    bcG.add_block tsB1 payloadP1 0 false = Except.ok res1f := by decide

theorem bc1_valid_eval : bc1.is_chain_valid = true := by decide

/-- The persisted file contents after the append. -/
def baseFile : List BlockRecord := bc1.to_list

/-- `baseFile` with one character of the genesis record's payload flipped
("GENESIS" to "XENESIS"); stored digests untouched. -/
def genMutFile : List BlockRecord :=
  baseFile.map fun r =>
    if r.index = 0 then
      { r with data := [("type", Prim.str "XENESIS"), ("note", Prim.str "genesis block")] }
    else r

/-- `baseFile` with one character of the non-genesis record's payload flipped
("P1" to "Q1"); stored digests untouched. -/
def flipMutFile : List BlockRecord :=
  baseFile.map fun r =>
    if r.index = 1 then
      { r with data := [("product_id", Prim.str "Q1"), ("stage", Prim.str "Created")] }
    else r

def bcGenMut : Blockchain := Blockchain.construct 0 (ReadResult.parsed genMutFile) tsG

def bcFlipMut : Blockchain := Blockchain.construct 0 (ReadResult.parsed flipMutFile) tsG

theorem flip_invalid_eval : bcFlipMut.is_chain_valid = false := by decide

/-- Difficulty-1 sealing example: candidate linked to the genesis digest; the digests at
seal counters 0 and 1 lack a leading zero, the one at seal counter 2 has it. -/
def candidate1 : Block := Block.new 1 "1700000008.0" payloadP1 genesisHashLit 0

def sealed1 : Block :=
  ⟨1, "1700000008.0", payloadP1, genesisHashLit, 2,
   "0eec776bb46e3a2dc5ffd23219bff3a3a474db4cb4d92779824643f0f63a5903"⟩

/-- One-time evaluation of the difficulty-1 proof-of-work search. -/
theorem pow_concrete_eval : powLoop 1 2 candidate1 = some sealed1 := by decide

/-! ## Claim theorems -/

/-- C3 (code bug): the source comment says "enforce PoW for genesis to set hash", but
`create_genesis_block` never calls `proof_of_work`; at difficulty 1 the fresh genesis
block (timestamp token 1700000000.0) has index 0 and sentinel previous digest, its
stored digest is merely the constructor-computed one (self-consistent), and it does NOT
start with one zero symbol, contradicting the claimed genesis-sealing scenario. -/
theorem genesis_unsealed_at_difficulty_one :
    (create_genesis_block tsG 1).chain.map
        (fun g => (g.index, g.previous_hash, g.hash == g.compute_hash,
                   leadingZeros g.hash.data 1))
      = [(0, "0", true, false)] := by decide

/-- C10: when the persisted file parses as an empty JSON list, construction succeeds
with an empty chain (no genesis synthesized), `is_valid()` is true, `events()` is
empty, and any subsequent append fails by indexing the tail of the empty sequence. -/
theorem empty_file_edge_case :
    ∀ (d : Nat) (ts : String),
      (Blockchain.construct d (ReadResult.parsed []) ts).chain = [] ∧
      (Blockchain.construct d (ReadResult.parsed []) ts).is_chain_valid = true ∧
      (Blockchain.construct d (ReadResult.parsed []) ts).get_all_events = [] ∧
      ∀ (ts2 : String) (data : Payload) (fuel : Nat) (w : Bool),
        (Blockchain.construct d (ReadResult.parsed []) ts).add_block ts2 data fuel w
          = Except.error ChainError.indexError :=
  fun _ _ => ⟨rfl, rfl, rfl, fun _ _ _ _ => rfl⟩

/-- C6: persisting any ledger and reloading the persisted records reproduces a ledger
with the same `is_valid()` result and the same `events()` output (and a successful
save persists exactly `to_list`). -/
theorem persistence_round_trip :
    ∀ (bc : Blockchain) (d : Nat) (ts : String),
      (bc.save_chain true).persisted = some bc.to_list ∧
      (Blockchain.construct d (ReadResult.parsed bc.to_list) ts).is_chain_valid
          = bc.is_chain_valid ∧
      (Blockchain.construct d (ReadResult.parsed bc.to_list) ts).get_all_events
          = bc.get_all_events := by
  intro bc d ts
  refine ⟨rfl, ?_, ?_⟩
  · show (Blockchain.mk (load_chain bc.to_list) d).is_chain_valid = bc.is_chain_valid
    rw [load_to_list]
    cases bc
    rfl
  · show (Blockchain.mk (load_chain bc.to_list) d).get_all_events = bc.get_all_events
    rw [load_to_list]
    cases bc
    rfl

/-- C9 (amended): on a read failure (or missing file) construction falls back to fresh
genesis initialization; but a write failure is caught inside `save_chain`, which only
prints a message — the triggering append completes normally and returns the sealed
block, with nothing persisted, instead of surfacing the error to its caller. -/
theorem persistence_error_handling_amended :
    (∀ (d : Nat) (ts : String),
        Blockchain.construct d ReadResult.absent ts = create_genesis_block ts d) ∧
    (∀ (d : Nat) (ts : String),
        Blockchain.construct d ReadResult.unreadable ts = create_genesis_block ts d) ∧
    (∀ bc : Blockchain,
        bc.save_chain false
          = ⟨none, ["Error saving chain: disk unwritable"]⟩) ∧
    (∀ (bc : Blockchain) (ts : String) (data : Payload) (fuel : Nat) (r : AddResult),
        bc.add_block ts data fuel false = Except.ok r →
        r.persisted = none ∧ r.log ≠ []) := by
  refine ⟨fun _ _ => rfl, fun _ _ => rfl, fun _ => rfl, ?_⟩
  intro bc ts data fuel r h
  obtain ⟨prev, _, _, _, hpers, hlog⟩ := add_block_ok bc ts data fuel false r h
  rw [hpers, hlog]
  exact ⟨rfl, by simp [Blockchain.save_chain, file_write]⟩

/-- C9 witness: the concrete append with a failing disk write still returns
`Except.ok`, with nothing persisted and a printed error message. -/
theorem persistence_error_handling_witness :
    res1f.persisted = none ∧ res1f.log ≠ [] :=
  persistence_error_handling_amended.2.2.2 bcG tsB1 payloadP1 0 res1f
    add_block_concrete_eval_writefail

/-- C9 counterexample: with the disk write failing, `add_block` returns the sealed
block as a normal success (`Except.ok`) and persists nothing — the error is not
surfaced to the caller, refuting the claim as stated. -/
theorem write_error_swallowed_cex :
    bcG.add_block tsB1 payloadP1 0 false = Except.ok res1f ∧
    res1f.persisted = none ∧ res1f.block = block1 :=
  ⟨add_block_concrete_eval_writefail, rfl, rfl⟩

/-- C8: two blocks equal in index, timestamp, previous digest and seal counter, whose
payload maps hold the same key/value pairs (as a permutation, with duplicate-free
keys) in possibly different insertion order, produce the identical digest. -/
theorem digest_canonicalization :
    ∀ b1 b2 : Block, b1.index = b2.index → b1.timestamp = b2.timestamp →
      b1.previous_hash = b2.previous_hash → b1.nonce = b2.nonce →
      List.Perm b1.data b2.data → ((b1.data).map Prod.fst).Nodup →
      b1.compute_hash = b2.compute_hash := by
  intro b1 b2 hi ht hp hn hperm hnd
  unfold Block.compute_hash computeHashOf blockString renderObj
  rw [hi, ht, hp, hn, sortPairs_eq_of_perm _ _ hperm hnd]

def payloadP1rev : Payload := [("stage", Prim.str "Created"), ("product_id", Prim.str "P1")]

/-- C8 witness: the two insertion orders of the sample payload hash identically. -/
theorem digest_canonicalization_witness :
    (Block.mk 1 tsB1 payloadP1 genesisHashLit 0 "").compute_hash
      = (Block.mk 1 tsB1 payloadP1rev genesisHashLit 0 "").compute_hash :=
  digest_canonicalization _ _ rfl rfl rfl rfl (by decide) (by decide)

/-- C4: partial correctness of the proof-of-work sealer. Whenever the (fuel-bounded
embedding of the) unbounded search returns on a candidate whose seal counter starts at
0, the returned block keeps all other fields, its digest satisfies the difficulty
predicate, its stored digest is set to the recomputed digest, and every smaller
non-negative seal counter fails the predicate (so the returned counter is the smallest);
and for difficulty 0 the first candidate is accepted with the seal counter unchanged. -/
theorem proof_of_work_correct :
    (∀ (d fuel : Nat) (b b' : Block), b.nonce = 0 → powLoop d fuel b = some b' →
      b'.index = b.index ∧ b'.timestamp = b.timestamp ∧ b'.data = b.data ∧
      b'.previous_hash = b.previous_hash ∧
      b'.hash = b'.compute_hash ∧
      leadingZeros b'.compute_hash.data d = true ∧
      ∀ n, n < b'.nonce →
        leadingZeros (computeHashOf b.index b.timestamp b.data b.previous_hash n).data d
          = false) ∧
    (∀ (fuel : Nat) (b : Block),
      powLoop 0 fuel b = some { b with hash := b.compute_hash }) := by
  constructor
  · intro d fuel b b' h0 h
    obtain ⟨h1, h2, h3, h4, _, h6, h7, h8⟩ := powLoop_sound d fuel b b' h
    exact ⟨h1, h2, h3, h4, h6, h7, fun n hn => h8 n (by omega) hn⟩
  · exact powLoop_zero

/-- C4 witness: the difficulty-1 search starting at seal counter 0 returns the block
sealed at counter 2 with its digest stored. -/
theorem proof_of_work_witness :
    sealed1.hash = sealed1.compute_hash ∧
    leadingZeros sealed1.compute_hash.data 1 = true ∧
    sealed1.nonce = 2 :=
  have h := proof_of_work_correct.1 1 2 candidate1 sealed1 rfl pow_concrete_eval
  ⟨h.2.2.2.2.1, h.2.2.2.2.2.1, rfl⟩

/-- C2: on a non-empty chain, a successful `add_block(P)` returns a sealed block with
index `tail.index + 1`, previous digest equal to the old tail digest, the given
payload and timestamp, stored digest equal to the recomputed digest satisfying the
difficulty predicate with the smallest seal counter from 0; it appends the block to
the in-memory sequence (difficulty unchanged) and, when the write succeeds, persists
the full sequence. -/
theorem append_postcondition :
    ∀ (bc : Blockchain) (ts : String) (data : Payload) (fuel : Nat) (w : Bool)
      (prev : Block) (r : AddResult),
      bc.chain.getLast? = some prev →
      bc.add_block ts data fuel w = Except.ok r →
      r.block.index = prev.index + 1 ∧
      r.block.previous_hash = prev.hash ∧
      r.block.data = data ∧
      r.block.timestamp = ts ∧
      r.block.hash = r.block.compute_hash ∧
      leadingZeros r.block.compute_hash.data bc.difficulty = true ∧
      (∀ n, n < r.block.nonce →
        leadingZeros (computeHashOf (prev.index + 1) ts data prev.hash n).data
          bc.difficulty = false) ∧
      r.ledger.chain = bc.chain ++ [r.block] ∧
      r.ledger.difficulty = bc.difficulty ∧
      (w = true → r.persisted = some r.ledger.to_list) := by
  intro bc ts data fuel w prev r hlast h
  obtain ⟨prev', hl', hpow, hled, hpers, _⟩ := add_block_ok bc ts data fuel w r h
  rw [hlast] at hl'
  injection hl' with hpe
  subst hpe
  obtain ⟨h1, h2, h3, h4, _, h6, h7, h8⟩ := powLoop_sound bc.difficulty fuel _ r.block hpow
  refine ⟨h1, h4, h3, h2, h6, h7, ?_, ?_, ?_, ?_⟩
  · intro n hn
    exact h8 n (Nat.zero_le n) hn
  · rw [hled]
  · rw [hled]
  · intro hw
    subst hw
    exact hpers

/-- C2 witness: the concrete append onto the fresh genesis ledger. -/
theorem append_postcondition_witness :
    res1.block.index = genesisBlock0.index + 1 ∧
    res1.block.previous_hash = genesisBlock0.hash ∧
    res1.ledger.chain = bcG.chain ++ [res1.block] :=
  have h := append_postcondition bcG tsB1 payloadP1 0 true genesisBlock0 res1
    (by decide) add_block_concrete_eval
  ⟨h.1, h.2.1, h.2.2.2.2.2.2.2.1⟩

/-- C5: `is_valid()` is true on the empty and the singleton chain; it is false exactly
when some block at index `i ≥ 1` fails linkage (its previous digest differs from its
predecessor's stored digest) or self-consistency (its stored digest differs from the
recomputed digest); and it never consults the difficulty, i.e. it never re-verifies
the proof-of-work predicate. -/
theorem validation_semantics :
    (∀ d : Nat, (Blockchain.mk [] d).is_chain_valid = true) ∧
    (∀ (d : Nat) (b : Block), (Blockchain.mk [b] d).is_chain_valid = true) ∧
    (∀ bc : Blockchain, bc.is_chain_valid = false ↔
      ∃ i : Nat, ∃ h : i + 1 < bc.chain.length,
        (bc.chain.get ⟨i + 1, h⟩).previous_hash
            ≠ (bc.chain.get ⟨i, Nat.lt_of_succ_lt h⟩).hash ∨
        (bc.chain.get ⟨i + 1, h⟩).compute_hash ≠ (bc.chain.get ⟨i + 1, h⟩).hash) ∧
    (∀ (c : List Block) (d d' : Nat),
      (Blockchain.mk c d).is_chain_valid = (Blockchain.mk c d').is_chain_valid) := by
  refine ⟨fun _ => rfl, fun _ _ => rfl, ?_, fun _ _ _ => rfl⟩
  intro bc
  rw [← Bool.not_eq_true, is_chain_valid_iff_chain', List.chain'_iff_get]
  constructor
  · intro hne
    obtain ⟨i, hi2⟩ := Classical.not_forall.mp hne
    obtain ⟨hi, hp⟩ := Classical.not_forall.mp hi2
    rw [pairOk_iff] at hp
    exact ⟨i, Nat.add_lt_of_lt_sub hi, not_and_or.mp hp⟩
  · rintro ⟨i, hi, hp⟩ hall
    have hi2 := hall i (Nat.lt_sub_of_add_lt hi)
    rw [pairOk_iff] at hi2
    rcases hp with hp | hp
    · exact hp hi2.1
    · exact hp hi2.2

/-- C5 witness: validation is unchanged under a difficulty change, and a singleton
chain validates. -/
theorem validation_semantics_witness :
    (Blockchain.mk bc1.chain 5).is_chain_valid
        = (Blockchain.mk bc1.chain 0).is_chain_valid ∧
    (Blockchain.mk [genesisBlock0] 3).is_chain_valid = true :=
  ⟨validation_semantics.2.2.2 bc1.chain 5 0, validation_semantics.2.1 3 genesisBlock0⟩

/-- C7: on every reachable ledger (genesis plus N appends), `events()` is exactly the
projection of every block except the genesis block (exposing index, timestamp,
payload, digest and previous digest), the chain indices are `0..N` in order, and the
event indices are `1..N`: strictly increasing with no gaps, in ascending order. -/
theorem events_projection :
    ∀ bc : Blockchain, Reachable bc →
      bc.get_all_events = (bc.chain.drop 1).map Block.toEvent ∧
      bc.chain.map Block.index = List.range bc.chain.length ∧
      bc.get_all_events.map EventRecord.block_index
        = List.range' 1 (bc.chain.length - 1) := by
  intro bc h
  obtain ⟨hmap, _⟩ := reachable_indices bc h
  refine ⟨rfl, hmap, ?_⟩
  show ((bc.chain.drop 1).map Block.toEvent).map EventRecord.block_index = _
  rw [List.map_map]
  rw [show EventRecord.block_index ∘ Block.toEvent = Block.index from rfl]
  rw [List.map_drop, hmap, drop_one_range]

/-- C7 witness: the concrete two-block ledger reached by one append. -/
theorem events_projection_witness :
    bc1.get_all_events.map EventRecord.block_index
      = List.range' 1 (bc1.chain.length - 1) :=
  (events_projection bc1
    (Reachable.step bcG tsB1 payloadP1 0 true res1 (Reachable.genesis tsG 0)
      add_block_concrete_eval)).2.2

def payloadQ1 : Payload := [("product_id", Prim.str "Q1"), ("stage", Prim.str "Created")]

def tamperedBlock1 : Block := { block1 with data := payloadQ1 }

/-- C1 (amended): every block of a reachable ledger has its stored digest equal to the
recomputed digest; replacing any non-genesis block of a valid chain by a block that
keeps the stored digest but whose recomputed digest differs (as any field mutation
does, absent a SHA-256 collision — previous-digest mutations are also caught directly
by the linkage check) makes `is_valid()` return false; and concretely, flipping one
character in the stored non-genesis block's payload in the persisted file and
reloading makes `is_valid()` return false. -/
theorem tamper_detection_amended :
    (∀ bc : Blockchain, Reachable bc → ∀ b ∈ bc.chain, b.hash = b.compute_hash) ∧
    (∀ (c : List Block) (d i : Nat) (b' : Block) (h : i + 1 < c.length),
      (Blockchain.mk c d).is_chain_valid = true →
      b'.hash = (c.get ⟨i + 1, h⟩).hash →
      b'.compute_hash ≠ (c.get ⟨i + 1, h⟩).compute_hash →
      (Blockchain.mk (c.set (i + 1) b') d).is_chain_valid = false) ∧
    ((bcFlipMut.chain.map Block.data ≠ bc1.chain.map Block.data) ∧
      bcFlipMut.is_chain_valid = false) := by
  refine ⟨?_, ?_, by decide, flip_invalid_eval⟩
  · intro bc h
    induction h with
    | genesis ts d =>
        intro b hb
        simp only [create_genesis_block, List.mem_singleton] at hb
        subst hb
        rfl
    | step bc ts data fuel w r hre hok ih =>
        intro b hb
        obtain ⟨prev, _, hp, hled, _, _⟩ := add_block_ok bc ts data fuel w r hok
        have hb2 : b ∈ bc.chain ++ [r.block] := by rw [hled] at hb; exact hb
        rcases List.mem_append.mp hb2 with hb3 | hb3
        · exact ih b hb3
        · rw [List.mem_singleton.mp hb3]
          exact (powLoop_sound _ _ _ _ hp).2.2.2.2.2.1
  · intro c d i b' h hv hh hne
    have hch2 : List.Chain' (fun p q => pairOk p q = true) c :=
      (is_chain_valid_iff_chain' ⟨c, d⟩).mp hv
    have horig := List.chain'_iff_get.mp hch2 i (by omega)
    rw [pairOk_iff] at horig
    cases hx : (Blockchain.mk (c.set (i + 1) b') d).is_chain_valid with
    | false => rfl
    | true =>
        exfalso
        have hch3 : List.Chain' (fun p q => pairOk p q = true) (c.set (i + 1) b') :=
          (is_chain_valid_iff_chain' _).mp hx
        have hmut := List.chain'_iff_get.mp hch3 i
          (by rw [List.length_set]; omega)
        rw [pairOk_iff] at hmut
        simp only [List.get_eq_getElem, List.getElem_set_self] at hmut
        apply hne
        calc b'.compute_hash = b'.hash := hmut.2
          _ = (c.get ⟨i + 1, h⟩).hash := hh
          _ = (c.get ⟨i + 1, h⟩).compute_hash := horig.2.symm

/-- C1 witness: the appended block of the concrete reachable ledger is
self-consistent, and replacing it by a payload-tampered block that keeps the stored
digest makes validation fail. -/
theorem tamper_detection_witness :
    block1.hash = block1.compute_hash ∧
    (Blockchain.mk (bc1.chain.set 1 tamperedBlock1) 0).is_chain_valid = false :=
  ⟨tamper_detection_amended.1 bc1
      (Reachable.step bcG tsB1 payloadP1 0 true res1 (Reachable.genesis tsG 0)
        add_block_concrete_eval)
      block1 (by decide),
   tamper_detection_amended.2.1 bc1.chain 0 0 tamperedBlock1 (by decide)
      bc1_valid_eval (by decide) (by decide)⟩

/-- C1 counterexample: mutating a field of the GENESIS block (its payload) without
resealing is NOT detected: the stored digests are unchanged, the genesis block is
genuinely inconsistent (recomputed digest differs from stored), yet `is_valid()`
still returns true — refuting "mutating any field of any block makes is_valid()
return false" as stated. -/
theorem genesis_mutation_undetected_cex :
    bc1.is_chain_valid = true ∧
    bcGenMut.chain.map Block.data ≠ bc1.chain.map Block.data ∧
    bcGenMut.chain.map Block.hash = bc1.chain.map Block.hash ∧
    bcGenMut.chain.map (fun b => b.compute_hash == b.hash) = [false, true] ∧
    bcGenMut.is_chain_valid = true :=
  ⟨bc1_valid_eval, by decide, by decide, by decide, by decide⟩

end SupplyChain
